import Mathlib

/-!
Verification development for the Monte-Carlo GBM stock-price forecaster.

The embedding translates the three core components of the repository:

* `src/simulator.py`, `MonteCarloSimulator.run_simulation`: the grid of
  simulated prices is a function of (day, path); the per-day vector of
  standard-normal draws produced by np.random.standard_normal is abstracted
  as an input `Z : day -> path -> real`, one fresh entry per (day, path)
  cell exactly as the code consumes it.  Python floats are modelled as
  exact reals.

* `src/data_fetcher.py`, `DataFetcher.calculate_parameters`: the pandas and
  numpy arithmetic there can produce NaN and infinities (log of a
  non-positive ratio, division by zero, dropna, mean and std of degenerate
  series), so the price series is modelled over `NpVal`, an IEEE-style
  extension of the reals with `inf`, `negInf` and `nan`, with the
  numpy/pandas semantics of each operation spelled out (pandas Series.std
  defaults to ddof = 1 and returns NaN for fewer than two observations;
  pandas mean and std skip NaN entries; mean of an empty series is NaN).

* `src/analyzer.py`, `ResultAnalyzer`: the analyzer applies only field
  operations and comparisons to the grid values (every IEEE float is a
  rational), so its inputs are modelled over the rationals, which keeps the
  percentile computation executable.  `npPercentile` is the default linear
  interpolation of np.percentile.  The one operation that can leave the
  finite range, the risk-reward division, is modelled with the same
  `NpVal` division (numpy float64 division by zero yields an infinity or
  NaN with a warning, it does not raise).
-/

/-- IEEE-style value domain used by the numpy and pandas operations:
a finite value, a signed infinity, or NaN. -/
inductive NpVal (α : Type) where
  | finite (x : α)
  | inf
  | negInf
  | nan

/-- NaN test, as used by pandas dropna and skipna. -/
def NpVal.isNan {α : Type} : NpVal α → Bool
  | .nan => true
  | _ => false

variable {α : Type} [LinearOrderedField α]

/-- IEEE addition on the extended domain (numpy float64 +). -/
def npAdd : NpVal α → NpVal α → NpVal α
  | .nan, _ => .nan
  | _, .nan => .nan
  | .inf, .negInf => .nan
  | .negInf, .inf => .nan
  | .inf, _ => .inf
  | _, .inf => .inf
  | .negInf, _ => .negInf
  | _, .negInf => .negInf
  | .finite x, .finite y => .finite (x + y)

/-- IEEE subtraction on the extended domain (numpy float64 -). -/
def npSub : NpVal α → NpVal α → NpVal α
  | .nan, _ => .nan
  | _, .nan => .nan
  | .inf, .inf => .nan
  | .negInf, .negInf => .nan
  | .inf, _ => .inf
  | .negInf, _ => .negInf
  | _, .inf => .negInf
  | _, .negInf => .inf
  | .finite x, .finite y => .finite (x - y)

/-- IEEE multiplication on the extended domain (numpy float64 *);
infinity times zero is NaN. -/
def npMul : NpVal α → NpVal α → NpVal α
  | .nan, _ => .nan
  | _, .nan => .nan
  | .inf, .inf => .inf
  | .inf, .negInf => .negInf
  | .negInf, .inf => .negInf
  | .negInf, .negInf => .inf
  | .inf, .finite y => if 0 < y then .inf else if y < 0 then .negInf else .nan
  | .finite x, .inf => if 0 < x then .inf else if x < 0 then .negInf else .nan
  | .negInf, .finite y => if 0 < y then .negInf else if y < 0 then .inf else .nan
  | .finite x, .negInf => if 0 < x then .negInf else if x < 0 then .inf else .nan
  | .finite x, .finite y => .finite (x * y)

/-- IEEE division on the extended domain (numpy float64 /): a nonzero
finite value divided by zero is a signed infinity, zero by zero is NaN;
numpy emits a RuntimeWarning but never raises. -/
def npDiv : NpVal α → NpVal α → NpVal α
  | .nan, _ => .nan
  | _, .nan => .nan
  | .inf, .inf => .nan
  | .inf, .negInf => .nan
  | .negInf, .inf => .nan
  | .negInf, .negInf => .nan
  | .inf, .finite y => if 0 ≤ y then .inf else .negInf
  | .negInf, .finite y => if 0 ≤ y then .negInf else .inf
  | .finite _, .inf => .finite 0
  | .finite _, .negInf => .finite 0
  | .finite x, .finite y =>
      if y = 0 then (if x = 0 then .nan else if 0 < x then .inf else .negInf)
      else .finite (x / y)

/-- IEEE absolute value on the extended domain (abs in python / numpy). -/
def npAbs : NpVal α → NpVal α
  | .finite x => .finite |x|
  | .inf => .inf
  | .negInf => .inf
  | .nan => .nan

/-- Sum of a list of extended values, as a fold of IEEE additions. -/
def npSum (l : List (NpVal α)) : NpVal α := l.foldr npAdd (.finite 0)

/-- pandas Series.mean with its default skipna = True: NaN entries are
skipped, and the mean of an empty (or all-NaN) series is NaN. -/
def pdMean (l : List (NpVal α)) : NpVal α :=
  let v := l.filter (fun x => ! x.isNan)
  if v.isEmpty then .nan else npDiv (npSum v) (.finite (v.length : α))

/-- numpy sqrt extended to the IEEE domain: NaN on negative input. -/
noncomputable def npSqrt : NpVal ℝ → NpVal ℝ
  | .finite x => if x < 0 then .nan else .finite (Real.sqrt x)
  | .inf => .inf
  | .negInf => .nan
  | .nan => .nan

/-- numpy log extended to the IEEE domain: log 0 is negative infinity,
log of a negative value is NaN (numpy warns but does not raise). -/
noncomputable def npLog : NpVal ℝ → NpVal ℝ
  | .finite x => if 0 < x then .finite (Real.log x) else if x = 0 then .negInf else .nan
  | .inf => .inf
  | .negInf => .nan
  | .nan => .nan

/-- pandas Series.std with its defaults (ddof = 1, skipna = True): divides
the sum of squared deviations by count - 1, and returns NaN when fewer
than two non-NaN observations are present. -/
noncomputable def pdStd (l : List (NpVal ℝ)) : NpVal ℝ :=
  let v := l.filter (fun x => ! x.isNan)
  if v.length ≤ 1 then .nan
  else
    npSqrt (npDiv
      (npSum (v.map (fun x => npMul (npSub x (pdMean v)) (npSub x (pdMean v)))))
      (.finite ((v.length : ℝ) - 1)))

/-- The elementwise ratio series `Close / Close.shift(1)` from
src/data_fetcher.py line 51: entry 0 divides by the NaN that shift
introduces, entry i divides price i by price i-1. -/
def closeRatios (prices : List (NpVal α)) : List (NpVal α) :=
  (prices.zip (NpVal.nan :: prices)).map (fun pr => npDiv pr.1 pr.2)

/-- The return series of src/data_fetcher.py line 51:
`np.log(Close / Close.shift(1)).dropna()` — the elementwise log of the
ratio series with the NaN entries dropped (dropna removes NaN only;
infinities are kept). -/
noncomputable def logReturns (prices : List (NpVal ℝ)) : List (NpVal ℝ) :=
  ((closeRatios prices).map npLog).filter (fun x => ! x.isNan)

/-- DataFetcher.calculate_parameters, src/data_fetcher.py lines 50-55:
mu is the mean of the log-return series times 252, sigma is the pandas
standard deviation of that series times sqrt 252. -/
noncomputable def calculate_parameters (prices : List (NpVal ℝ)) :
    NpVal ℝ × NpVal ℝ :=
  (npMul (pdMean (logReturns prices)) (.finite 252),
   npMul (pdStd (logReturns prices)) (npSqrt (.finite 252)))

/-- The error actually raised by DataFetcher.calculate_parameters when no
data has been fetched (src/data_fetcher.py lines 47-48): a plain
ValueError. -/
inductive DFError where
  | valueError

/-- DataFetcher.calculate_parameters including its only raise path: with
`self.data` equal to None it raises ValueError, otherwise it computes the
parameters from the fetched close series. -/
noncomputable def df_calculate_parameters (data : Option (List (NpVal ℝ))) :
    Except DFError (NpVal ℝ × NpVal ℝ) :=
  match data with
  | none => .error .valueError
  | some prices => .ok (calculate_parameters prices)

/-- Mean of a list of reals: sum divided by length.  Spec-side helper for
stating the calibration formulas of the claims. -/
noncomputable def listMean (l : List ℝ) : ℝ := l.sum / l.length

/-- Modelled from the claim wording: the log-return series
r_i = ln (P_i / P_{i-1}) of a real-valued price series. -/
noncomputable def specLogReturns (prices : List ℝ) : List ℝ :=
  List.zipWith (fun p c => Real.log (c / p)) prices prices.tail

/-- Modelled from the claim wording of C2: the population standard
deviation, dividing the sum of squared deviations by the count. -/
noncomputable def popStdDev (l : List ℝ) : ℝ :=
  Real.sqrt ((l.map (fun x => (x - listMean l) ^ 2)).sum / l.length)

/-- Modelled from the claim wording of C2: calibration with the population
standard-deviation convention, mu = mean * 252 and
sigma = population std * sqrt 252. -/
noncomputable def specCalibratePop (prices : List ℝ) : ℝ × ℝ :=
  (listMean (specLogReturns prices) * 252,
   popStdDev (specLogReturns prices) * Real.sqrt 252)

/-- The sample standard deviation (the pandas ddof = 1 convention):
sum of squared deviations divided by count - 1. -/
noncomputable def sampleStdDev (l : List ℝ) : ℝ :=
  Real.sqrt ((l.map (fun x => (x - listMean l) ^ 2)).sum / ((l.length : ℝ) - 1))

/-- The daily time increment of src/simulator.py line 41: one trading day. -/
noncomputable def dt : ℝ := 1 / 252

/-- The simulated price grid of MonteCarloSimulator.run_simulation,
src/simulator.py lines 44-59: row 0 is the current price, row t multiplies
row t-1 elementwise by exp ((mu - 0.5 sigma^2) dt + sigma sqrt dt Z),
where Z t p is the entry for path p of the standard-normal vector drawn at
loop iteration t. -/
noncomputable def simPaths (s0 mu sigma : ℝ) (Z : ℕ → ℕ → ℝ) : ℕ → ℕ → ℝ
  | 0, _ => s0
  | t + 1, p =>
      simPaths s0 mu sigma Z t p *
        Real.exp ((mu - 0.5 * sigma ^ 2) * dt + sigma * Real.sqrt dt * Z (t + 1) p)

/-- The simulated ensemble: its dimensions and the value grid. -/
structure Ensemble where
  days : ℕ
  numSims : ℕ
  val : ℕ → ℕ → ℝ

/-- The only failure run_simulation can produce: with forecast_days = 0
the assignment `simulations[0] = self.current_price` on an empty first
axis raises IndexError (src/simulator.py line 45).  The method performs no
parameter validation of its own. -/
inductive SimError where
  | indexError

/-- MonteCarloSimulator.run_simulation, src/simulator.py lines 23-71:
no input validation; fails only for forecast_days = 0, and otherwise
returns the GBM grid. -/
noncomputable def run_simulation (s0 mu sigma : ℝ) (Z : ℕ → ℕ → ℝ)
    (num_simulations forecast_days : ℕ) : Except SimError Ensemble :=
  if forecast_days = 0 then .error .indexError
  else .ok ⟨forecast_days, num_simulations, simPaths s0 mu sigma Z⟩

/-- Linear interpolation at fractional index h into a sorted list, the
core of the default interpolation of np.percentile: with i the floor of h,
the result is s i + (h - i) * (s (i+1) - s i). -/
def interp (s : List ℚ) (h : ℚ) : ℚ :=
  let i : ℕ := (⌊h⌋).toNat
  let lo := s.getD i 0
  let hi := s.getD (i + 1) lo
  lo + (h - (i : ℚ)) * (hi - lo)

/-- np.percentile with its default linear interpolation, as used across
src/analyzer.py: sort the values and interpolate at the virtual index
q * (n - 1) / 100. -/
def npPercentile (q : ℚ) (xs : List ℚ) : ℚ :=
  interp (List.insertionSort (· ≤ ·) xs) (q * ((xs.length : ℚ) - 1) / 100)

/-- A rational-valued view of the simulation grid as the analyzer consumes
it (every IEEE float is a rational, and the analyzer applies only field
operations and comparisons). -/
structure QEnsemble where
  days : ℕ
  paths : ℕ
  val : ℕ → ℕ → ℚ

/-- One day of the grid across the path dimension, the axis = 1 slice of
np.percentile in ResultAnalyzer._explain_confidence_intervals. -/
def dayColumn (e : QEnsemble) (t : ℕ) : List ℚ :=
  (List.range e.paths).map (e.val t)

/-- The per-day percentile band of
ResultAnalyzer._explain_confidence_intervals, src/analyzer.py lines
136-139: np.percentile of the day-t values across paths. -/
def percentileBand (e : QEnsemble) (q : ℚ) (t : ℕ) : ℚ :=
  npPercentile q (dayColumn e t)

/-- `np.sum(self.final_prices > self.current_price)` of
ResultAnalyzer._explain_simulation_paths, src/analyzer.py line 81. -/
def paths_above (finalPrices : List ℚ) (current : ℚ) : ℕ :=
  (finalPrices.filter (fun x => decide (current < x))).length

/-- `np.sum(self.final_prices <= self.current_price)` of
ResultAnalyzer._explain_simulation_paths, src/analyzer.py line 82. -/
def paths_below (finalPrices : List ℚ) (current : ℚ) : ℕ :=
  (finalPrices.filter (fun x => decide (x ≤ current))).length

/-- `pct_above` of src/analyzer.py line 83. -/
def pct_above (finalPrices : List ℚ) (current : ℚ) : ℚ :=
  (paths_above finalPrices current : ℚ) / (finalPrices.length : ℚ) * 100

/-- `pct_below` of src/analyzer.py line 84. -/
def pct_below (finalPrices : List ℚ) (current : ℚ) : ℚ :=
  (paths_below finalPrices current : ℚ) / (finalPrices.length : ℚ) * 100

/-- The risk-reward computation of ResultAnalyzer._explain_price_distribution,
src/analyzer.py lines 229-232 and 279: gain and loss are the percentage
moves of the 95th and 5th percentile of final prices from the current
price, and the reported ratio is abs (gain / loss) under numpy float64
division. -/
def riskRewardRatio (finalPrices : List ℚ) (current : ℚ) : NpVal ℚ :=
  npAbs (npDiv
    (.finite ((npPercentile 95 finalPrices / current - 1) * 100))
    (.finite ((npPercentile 5 finalPrices / current - 1) * 100)))

/-- Outcome of ResultAnalyzer.print_full_analysis: either the report is
printed, or (when calculate_statistics has not run) an error message is
printed and the method returns normally. -/
inductive PrintOutcome where
  | reportPrinted
  | errorMessagePrinted

/-- ResultAnalyzer.print_full_analysis, src/analyzer.py lines 336-357:
with `self.results` still None it prints an error message and returns
(it raises nothing); otherwise it prints the full report. -/
def print_full_analysis {σ : Type} (results : Option σ) : PrintOutcome :=
  match results with
  | none => .errorMessagePrinted
  | some _ => .reportPrinted

/-- The value of a path depends only on the noise entries of that path at
days up to t: the grid never reuses a draw across paths. -/
theorem simPaths_agree (s0 mu sigma : ℝ) (Z W : ℕ → ℕ → ℝ) (p : ℕ) :
    ∀ t, (∀ s, s ≤ t → W s p = Z s p) →
      simPaths s0 mu sigma W t p = simPaths s0 mu sigma Z t p := by
  intro t
  induction t with
  | zero => intro _; rfl
  | succ k ih =>
      intro hW
      show simPaths s0 mu sigma W k p * _ = simPaths s0 mu sigma Z k p * _
      rw [ih (fun s hs => hW s (Nat.le_succ_of_le hs)), hW (k + 1) (Nat.le_refl _)]

/-- C1: every grid produced by run_simulation has day 0 of every path
equal to the current price, and for 1 <= t < forecast_days the value of a
path at day t is the previous value times
exp ((mu - 0.5 sigma^2) dt + sigma sqrt dt Z t p), where Z t p is the
fresh draw for that (day, path) cell; moreover the value is a function of
the draws of that path only, at days up to t, so no draw is reused across
days or paths. -/
theorem run_simulation_gbm_recurrence (s0 mu sigma : ℝ) (Z : ℕ → ℕ → ℝ)
    (n d : ℕ) (e : Ensemble) (h : run_simulation s0 mu sigma Z n d = .ok e)
    (t p : ℕ) (ht1 : 1 ≤ t) (ht2 : t < e.days) :
    e.val 0 p = s0 ∧
    e.val t p = e.val (t - 1) p *
      Real.exp ((mu - 0.5 * sigma ^ 2) * dt + sigma * Real.sqrt dt * Z t p) ∧
    ∀ W : ℕ → ℕ → ℝ, (∀ s, s ≤ t → W s p = Z s p) →
      simPaths s0 mu sigma W t p = e.val t p := by
  rw [run_simulation] at h
  split at h
  · exact absurd h (by intro hc; cases hc)
  · injection h with h2
    subst h2
    refine ⟨rfl, ?_, ?_⟩
    · cases t with
      | zero => omega
      | succ k => rfl
    · intro W hW
      exact simPaths_agree s0 mu sigma Z W p t hW

/-- Concrete witness for C1. -/
theorem run_simulation_gbm_recurrence_witness :
    (Ensemble.mk 2 1 (simPaths 2 0 0 (fun _ _ => 0))).val 0 0 = 2 ∧
    (Ensemble.mk 2 1 (simPaths 2 0 0 (fun _ _ => 0))).val 1 0 =
      (Ensemble.mk 2 1 (simPaths 2 0 0 (fun _ _ => 0))).val (1 - 1) 0 *
        Real.exp ((0 - 0.5 * 0 ^ 2) * dt +
          0 * Real.sqrt dt * (fun _ _ => (0 : ℝ)) 1 0) ∧
    ∀ W : ℕ → ℕ → ℝ, (∀ s, s ≤ 1 → W s 0 = (fun _ _ => (0 : ℝ)) s 0) →
      simPaths 2 0 0 W 1 0 = (Ensemble.mk 2 1 (simPaths 2 0 0 (fun _ _ => 0))).val 1 0 :=
  run_simulation_gbm_recurrence 2 0 0 (fun _ _ => 0) 1 2 _ rfl 1 0
    (by decide) (by decide)

/-- With sigma = 0 the grid collapses to the deterministic drift curve. -/
theorem simPaths_sigma_zero_closed (s0 mu : ℝ) (Z : ℕ → ℕ → ℝ) (p : ℕ) :
    ∀ t, simPaths s0 mu 0 Z t p = s0 * Real.exp (mu * dt * t) := by
  intro t
  induction t with
  | zero => simp [simPaths]
  | succ k ih =>
      show simPaths s0 mu 0 Z k p * _ = _
      rw [ih, mul_assoc, ← Real.exp_add]
      congr 1
      push_cast
      ring

/-- C3: with sigma = 0 and valid inputs, every path of the produced grid
is identical and its value at day t is current_price * exp (mu dt t); no
division by zero and no special case occurs (the recurrence is the same
one as in the general case). -/
theorem run_simulation_sigma_zero (s0 mu : ℝ) (Z : ℕ → ℕ → ℝ) (n d : ℕ)
    (e : Ensemble) (h : run_simulation s0 mu 0 Z n d = .ok e)
    (hs0 : 0 < s0) (hn : 1 ≤ n) (hd : 1 ≤ d) (t p q : ℕ) (ht : t < e.days) :
    e.val t p = s0 * Real.exp (mu * dt * t) ∧ e.val t p = e.val t q := by
  rw [run_simulation] at h
  split at h
  · exact absurd h (by intro hc; cases hc)
  · injection h with h2
    subst h2
    refine ⟨simPaths_sigma_zero_closed s0 mu Z p t, ?_⟩
    show simPaths s0 mu 0 Z t p = simPaths s0 mu 0 Z t q
    rw [simPaths_sigma_zero_closed s0 mu Z p t, simPaths_sigma_zero_closed s0 mu Z q t]

/-- Concrete witness for C3. -/
theorem run_simulation_sigma_zero_witness :
    (Ensemble.mk 1 1 (simPaths 1 0 0 (fun _ _ => 0))).val 0 0 =
      1 * Real.exp (0 * dt * (0 : ℕ)) ∧
    (Ensemble.mk 1 1 (simPaths 1 0 0 (fun _ _ => 0))).val 0 0 =
      (Ensemble.mk 1 1 (simPaths 1 0 0 (fun _ _ => 0))).val 0 0 :=
  run_simulation_sigma_zero 1 0 (fun _ _ => 0) 1 1 _ rfl
    (by norm_num) (by decide) (by decide) 0 0 0 (by decide)

/-- C5 counterexample: run_simulation succeeds on current_price = -1,
although the claim requires failure with InvalidParameterError for every
current_price <= 0 (the method performs no validation at all, and no
InvalidParameterError exists in the repository). -/
theorem run_simulation_accepts_nonpositive_price :
    run_simulation (-1) 0 0 (fun _ _ => 0) 5 3 =
      Except.ok (Ensemble.mk 3 5 (simPaths (-1) 0 0 (fun _ _ => 0))) := rfl

/-- C5 amended: run_simulation validates nothing: for every
forecast_days >= 1 it succeeds and returns the GBM grid regardless of
current_price (even non-positive), and for forecast_days = 0 it fails
with an IndexError, not an InvalidParameterError. -/
theorem run_simulation_no_validation (s0 mu sigma : ℝ) (Z : ℕ → ℕ → ℝ)
    (n d : ℕ) (hd : 1 ≤ d) :
    run_simulation s0 mu sigma Z n d =
      Except.ok (Ensemble.mk d n (simPaths s0 mu sigma Z)) ∧
    run_simulation s0 mu sigma Z n 0 = Except.error SimError.indexError := by
  constructor
  · rw [run_simulation, if_neg (by omega)]
  · rfl

/-- Concrete witness for the amended C5. -/
theorem run_simulation_no_validation_witness :
    run_simulation (-7) 2 3 (fun _ _ => 0) 4 2 =
      Except.ok (Ensemble.mk 2 4 (simPaths (-7) 2 3 (fun _ _ => 0))) ∧
    run_simulation (-7) 2 3 (fun _ _ => 0) 4 0 = Except.error SimError.indexError :=
  run_simulation_no_validation (-7) 2 3 (fun _ _ => 0) 4 2 (by decide)

/-- Every final price lands in exactly one of the two filters: strictly
above the current price, or less than or equal to it. -/
theorem filter_partition_length (l : List ℚ) (c : ℚ) :
    (l.filter (fun x => decide (c < x))).length +
      (l.filter (fun x => decide (x ≤ c))).length = l.length := by
  induction l with
  | nil => rfl
  | cons a t ih =>
      rw [List.filter_cons, List.filter_cons]
      by_cases h : c < a
      · rw [if_pos (by simpa using h), if_neg (by simpa using not_le.mpr h)]
        simp only [List.length_cons]
        omega
      · rw [if_neg (by simpa using h), if_pos (by simpa using not_lt.mp h)]
        simp only [List.length_cons]
        omega

/-- C10: the classification of final prices in
ResultAnalyzer._explain_simulation_paths partitions the paths exactly: the
count of paths ending strictly above the current price plus the count
ending at or below it equals the number of paths, the two reported
percentages sum to 100, and a path ending exactly at the current price is
counted as ending below. -/
theorem path_classification_partition (fp : List ℚ) (c : ℚ)
    (h : 1 ≤ fp.length) :
    paths_above fp c + paths_below fp c = fp.length ∧
    pct_above fp c + pct_below fp c = 100 ∧
    paths_above [c] c = 0 ∧ paths_below [c] c = 1 := by
  have hpart : paths_above fp c + paths_below fp c = fp.length :=
    filter_partition_length fp c
  refine ⟨hpart, ?_, ?_, ?_⟩
  · have hn : (fp.length : ℚ) ≠ 0 := Nat.cast_ne_zero.mpr (by omega)
    have hsum : (paths_above fp c : ℚ) + (paths_below fp c : ℚ) = (fp.length : ℚ) := by
      exact_mod_cast congrArg (Nat.cast : ℕ → ℚ) hpart
    rw [pct_above, pct_below]
    field_simp
    linarith
  · simp [paths_above, List.filter_cons, lt_irrefl]
  · simp [paths_below, List.filter_cons, le_refl]

/-- Concrete witness for C10. -/
theorem path_classification_partition_witness :
    paths_above [3, 5] 4 + paths_below [3, 5] 4 = ([3, 5] : List ℚ).length ∧
    pct_above [3, 5] 4 + pct_below [3, 5] 4 = 100 ∧
    paths_above [4] 4 = 0 ∧ paths_below [4] 4 = 1 :=
  path_classification_partition [3, 5] 4 (by decide)

/-- C9 counterexample: requesting the full analysis before the statistics
exist makes print_full_analysis print an error message and return
normally; it does not fail with NotCalibratedError (no such error exists
in the repository). -/
theorem print_full_analysis_no_raise :
    print_full_analysis (none : Option Unit) = PrintOutcome.errorMessagePrinted := rfl

/-- C9 amended: out-of-order invocation raises no NotCalibratedError:
print_full_analysis prints an error message and returns normally when the
statistics are missing, prints the report when they exist, and the other
out-of-order guard in the pipeline, DataFetcher.calculate_parameters with
no fetched data, raises a plain ValueError. -/
theorem analysis_out_of_order_behavior (σ : Type) (r : σ) :
    print_full_analysis (some r) = PrintOutcome.reportPrinted ∧
    print_full_analysis (none : Option σ) = PrintOutcome.errorMessagePrinted ∧
    df_calculate_parameters none = Except.error DFError.valueError :=
  ⟨rfl, rfl, rfl⟩

/-- Division of a finite numerator by a finite zero under numpy float64
semantics. -/
theorem npDiv_finite_zero (x : α) :
    npDiv (NpVal.finite x) (NpVal.finite 0) =
      if x = 0 then NpVal.nan else if 0 < x then NpVal.inf else NpVal.negInf := by
  show (if (0 : α) = 0 then (if x = 0 then NpVal.nan else if 0 < x then NpVal.inf
      else NpVal.negInf) else NpVal.finite (x / 0)) = _
  rw [if_pos rfl]

/-- C8: when the downside figure is exactly zero the risk-reward ratio of
ResultAnalyzer._explain_price_distribution is an infinity or NaN under
numpy float64 division; the computation is total and raises nothing. -/
theorem riskRewardRatio_zero_downside (fp : List ℚ) (c : ℚ)
    (h : (npPercentile 5 fp / c - 1) * 100 = 0) :
    riskRewardRatio fp c = NpVal.inf ∨ riskRewardRatio fp c = NpVal.nan := by
  have hrr : riskRewardRatio fp c =
      npAbs (npDiv (.finite ((npPercentile 95 fp / c - 1) * 100))
        (.finite ((npPercentile 5 fp / c - 1) * 100))) := rfl
  rw [hrr, h]
  rcases lt_trichotomy ((npPercentile 95 fp / c - 1) * 100) 0 with hlt | heq | hgt
  · left
    rw [npDiv_finite_zero, if_neg (ne_of_lt hlt), if_neg (not_lt.mpr (le_of_lt hlt))]
    rfl
  · right
    rw [npDiv_finite_zero, if_pos heq]
    rfl
  · left
    rw [npDiv_finite_zero, if_neg (ne_of_gt hgt), if_pos hgt]
    rfl

/-- Concrete witness for C8. -/
theorem riskRewardRatio_zero_downside_witness :
    riskRewardRatio [1] 1 = NpVal.inf ∨ riskRewardRatio [1] 1 = NpVal.nan :=
  riskRewardRatio_zero_downside [1] 1
    (by norm_num [npPercentile, interp, List.insertionSort, List.orderedInsert,
      List.getD])

/-- Division of finite values with a nonzero denominator is exact real
division. -/
theorem npDiv_finite_finite (x y : α) (hy : y ≠ 0) :
    npDiv (NpVal.finite x) (NpVal.finite y) = NpVal.finite (x / y) := by
  show (if y = 0 then (if x = 0 then NpVal.nan else if 0 < x then NpVal.inf
      else NpVal.negInf) else NpVal.finite (x / y)) = _
  rw [if_neg hy]

/-- Dividing a finite value by NaN gives NaN. -/
theorem npDiv_finite_nan (x : α) :
    npDiv (NpVal.finite x) NpVal.nan = NpVal.nan := rfl

/-- Multiplying NaN by anything gives NaN. -/
theorem npMul_nan_left (b : NpVal α) : npMul NpVal.nan b = NpVal.nan := by
  cases b <;> rfl

/-- Multiplication of finite values is exact. -/
theorem npMul_finite_finite (x y : α) :
    npMul (NpVal.finite x) (NpVal.finite y) = NpVal.finite (x * y) := rfl

/-- numpy log of a finite positive value is the real log. -/
theorem npLog_finite_pos (x : ℝ) (hx : 0 < x) :
    npLog (NpVal.finite x) = NpVal.finite (Real.log x) := by
  show (if 0 < x then NpVal.finite (Real.log x) else if x = 0 then NpVal.negInf
      else NpVal.nan) = _
  rw [if_pos hx]

/-- numpy log of a finite negative value is NaN. -/
theorem npLog_finite_neg (x : ℝ) (hx : x < 0) :
    npLog (NpVal.finite x) = NpVal.nan := by
  show (if 0 < x then NpVal.finite (Real.log x) else if x = 0 then NpVal.negInf
      else NpVal.nan) = _
  rw [if_neg (by linarith), if_neg (by linarith)]

/-- numpy sqrt of a finite nonnegative value is the real sqrt. -/
theorem npSqrt_finite_nonneg (x : ℝ) (hx : 0 ≤ x) :
    npSqrt (NpVal.finite x) = NpVal.finite (Real.sqrt x) := by
  show (if x < 0 then NpVal.nan else NpVal.finite (Real.sqrt x)) = _
  rw [if_neg (not_lt.mpr hx)]

/-- Summing a list of finite values is exact. -/
theorem npSum_map_finite (l : List α) :
    npSum (l.map NpVal.finite) = NpVal.finite l.sum := by
  induction l with
  | nil => rfl
  | cons a t ih =>
      show npAdd (NpVal.finite a) (npSum (t.map NpVal.finite)) = _
      rw [ih, List.sum_cons]
      rfl

/-- The NaN-skipping filter keeps a list of finite values intact. -/
theorem filter_map_finite (l : List α) :
    (l.map NpVal.finite).filter (fun x => ! NpVal.isNan x) = l.map NpVal.finite := by
  rw [List.filter_eq_self]
  intro a ha
  obtain ⟨x, _, rfl⟩ := List.mem_map.mp ha
  rfl

/-- pandas mean of a nonempty list of finite reals is the exact mean. -/
theorem pdMean_map_finite (l : List ℝ) (h : l ≠ []) :
    pdMean (l.map NpVal.finite) = NpVal.finite (listMean l) := by
  have hn : (l.length : ℝ) ≠ 0 :=
    Nat.cast_ne_zero.mpr (by simpa [List.length_eq_zero] using h)
  simp only [pdMean]
  rw [filter_map_finite, if_neg (by simp [h]), npSum_map_finite, List.length_map,
    npDiv_finite_finite l.sum (l.length : ℝ) hn]
  rfl

/-- Squared deviations of finite values are exact. -/
theorem sqdev_map_finite (l : List ℝ) (m : ℝ) :
    (l.map NpVal.finite).map
        (fun x => npMul (npSub x (NpVal.finite m)) (npSub x (NpVal.finite m)))
      = (l.map fun x => (x - m) * (x - m)).map NpVal.finite := by
  induction l with
  | nil => rfl
  | cons a t ih => simp only [List.map_cons, ih]; rfl

/-- pandas std of at least two finite reals is the exact ddof = 1 sample
standard deviation. -/
theorem pdStd_map_finite (l : List ℝ) (h : 2 ≤ l.length) :
    pdStd (l.map NpVal.finite) = NpVal.finite (sampleStdDev l) := by
  have hne : l ≠ [] := by
    intro hc
    rw [hc] at h
    exact absurd h (by norm_num)
  have hlen : ((l.length : ℝ) - 1) ≠ 0 := by
    have : (2 : ℝ) ≤ (l.length : ℝ) := by exact_mod_cast h
    intro hc
    nlinarith
  simp only [pdStd]
  rw [filter_map_finite, List.length_map, if_neg (by omega),
    pdMean_map_finite l hne, sqdev_map_finite, npSum_map_finite,
    npDiv_finite_finite _ _ hlen, npSqrt_finite_nonneg _ ?hnn]
  case hnn =>
    apply div_nonneg
    · apply List.sum_nonneg
      intro x hx
      obtain ⟨y, _, rfl⟩ := List.mem_map.mp hx
      exact mul_self_nonneg _
    · have : (2 : ℝ) ≤ (l.length : ℝ) := by exact_mod_cast h
      linarith
  rw [sampleStdDev]
  have hm : (List.map (fun x => (x - listMean l) * (x - listMean l)) l)
      = List.map (fun x => (x - listMean l) ^ 2) l := by
    apply List.map_congr_left
    intro x _
    rw [pow_two]
  rw [hm]

/-- Tail of the ratio-log-dropna pipeline on positive finite prices: each
consecutive ratio is finite and positive, its log is finite, and the
filter keeps everything. -/
theorem logReturns_zip_pos (ps : List ℝ) :
    ∀ a : ℝ, 0 < a → (∀ x ∈ ps, 0 < x) →
      ((((ps.map NpVal.finite).zip (NpVal.finite a :: ps.map NpVal.finite)).map
          (fun pr => npDiv pr.1 pr.2)).map npLog).filter (fun x => ! NpVal.isNan x)
        = (List.zipWith (fun p c => Real.log (c / p)) (a :: ps) ps).map NpVal.finite := by
  induction ps with
  | nil => intro a _ _; rfl
  | cons b t ih =>
      intro a ha hps
      have hb : 0 < b := hps b (List.mem_cons_self b t)
      simp only [List.map_cons, List.zip_cons_cons, List.zipWith_cons_cons]
      rw [npDiv_finite_finite b a (ne_of_gt ha), npLog_finite_pos (b / a) (div_pos hb ha)]
      rw [List.filter_cons, if_pos (by rfl)]
      rw [ih b hb (fun x hx => hps x (List.mem_cons_of_mem b hx))]

/-- On a series of positive finite prices the return series of the code is
exactly the spec-side log-return series: the single NaN from the shift is
dropped and every consecutive log-ratio is kept. -/
theorem logReturns_pos (ps : List ℝ) (hps : ∀ x ∈ ps, 0 < x) :
    logReturns (ps.map NpVal.finite) = (specLogReturns ps).map NpVal.finite := by
  cases ps with
  | nil => rfl
  | cons a t =>
      have ha : 0 < a := hps a (List.mem_cons_self a t)
      show ((((NpVal.finite a :: t.map NpVal.finite).zip
          (NpVal.nan :: NpVal.finite a :: t.map NpVal.finite)).map
            (fun pr => npDiv pr.1 pr.2)).map npLog).filter (fun x => ! NpVal.isNan x)
        = (List.zipWith (fun p c => Real.log (c / p)) (a :: t) t).map NpVal.finite
      rw [List.zip_cons_cons, List.map_cons, List.map_cons, List.filter_cons]
      rw [if_neg (by rw [npDiv_finite_nan]; simp [npLog, NpVal.isNan])]
      exact logReturns_zip_pos t a ha (fun x hx => hps x (List.mem_cons_of_mem a hx))

/-- C2 counterexample: on the two-point series [100, 110] the code returns
sigma = NaN (pandas std of a single return with ddof = 1), while the
claimed population convention gives sigma = 0 * sqrt 252 = 0; the code
output differs from the claimed one. -/
theorem calculate_parameters_population_counterexample :
    (calculate_parameters [NpVal.finite 100, NpVal.finite 110]).2 = NpVal.nan ∧
    (specCalibratePop [100, 110]).2 = 0 ∧
    (calculate_parameters [NpVal.finite 100, NpVal.finite 110]).2 ≠
      NpVal.finite ((specCalibratePop [100, 110]).2) := by
  have h1 : (calculate_parameters [NpVal.finite 100, NpVal.finite 110]).2 = NpVal.nan := by
    have hlr : logReturns [NpVal.finite 100, NpVal.finite 110]
        = (specLogReturns [100, 110]).map NpVal.finite := by
      have := logReturns_pos [100, 110] (by norm_num)
      simpa using this
    show npMul (pdStd (logReturns [NpVal.finite 100, NpVal.finite 110]))
        (npSqrt (NpVal.finite 252)) = NpVal.nan
    rw [hlr, npSqrt_finite_nonneg 252 (by norm_num)]
    have hone : ((specLogReturns [100, 110]).map NpVal.finite).length = 1 := by
      simp [specLogReturns]
    have hstd : pdStd ((specLogReturns [100, 110]).map NpVal.finite) = NpVal.nan := by
      simp only [pdStd]
      rw [filter_map_finite]
      rw [if_pos (by rw [hone])]
    rw [hstd]
    rfl
  refine ⟨h1, ?_, ?_⟩
  · show popStdDev (specLogReturns [100, 110]) * Real.sqrt 252 = 0
    have : popStdDev (specLogReturns [100, 110]) = 0 := by
      simp [popStdDev, specLogReturns, listMean]
    rw [this, zero_mul]
  · rw [h1]
    simp

/-- C2 amended: for a positive price series of length N >= 2 the code
returns mu equal to the mean of the log-return series times 252, and sigma
equal to the SAMPLE standard deviation of that series (pandas default
ddof = 1, divide by count - 1, not count) times sqrt 252 — which in
particular is NaN when N = 2, because a single return has no sample
deviation under ddof = 1. -/
theorem calculate_parameters_sample_std (ps : List ℝ)
    (hpos : ∀ x ∈ ps, 0 < x) (h2 : 2 ≤ ps.length) :
    (calculate_parameters (ps.map NpVal.finite)).1 =
      NpVal.finite (listMean (specLogReturns ps) * 252) ∧
    (3 ≤ ps.length → (calculate_parameters (ps.map NpVal.finite)).2 =
      NpVal.finite (sampleStdDev (specLogReturns ps) * Real.sqrt 252)) ∧
    (ps.length = 2 → (calculate_parameters (ps.map NpVal.finite)).2 = NpVal.nan) := by
  have hlr := logReturns_pos ps hpos
  have hlen : (specLogReturns ps).length = ps.length - 1 := by
    simp only [specLogReturns, List.length_zipWith, List.length_tail]
    omega
  refine ⟨?_, ?_, ?_⟩
  · show npMul (pdMean (logReturns (ps.map NpVal.finite))) (NpVal.finite 252) = _
    rw [hlr, pdMean_map_finite _ (by
      apply List.ne_nil_of_length_pos
      omega)]
    rfl
  · intro h3
    show npMul (pdStd (logReturns (ps.map NpVal.finite))) (npSqrt (NpVal.finite 252)) = _
    rw [hlr, pdStd_map_finite _ (by omega), npSqrt_finite_nonneg 252 (by norm_num)]
    rfl
  · intro he
    show npMul (pdStd (logReturns (ps.map NpVal.finite))) (npSqrt (NpVal.finite 252)) = _
    rw [hlr, npSqrt_finite_nonneg 252 (by norm_num)]
    have hstd : pdStd ((specLogReturns ps).map NpVal.finite) = NpVal.nan := by
      simp only [pdStd]
      rw [filter_map_finite, List.length_map, if_pos (by omega)]
    rw [hstd]
    rfl

/-- Concrete witness for the amended C2. -/
theorem calculate_parameters_sample_std_witness :
    ((calculate_parameters ([100, 110, 100].map NpVal.finite)).1 =
      NpVal.finite (listMean (specLogReturns [100, 110, 100]) * 252) ∧
    (3 ≤ ([100, 110, 100] : List ℝ).length →
      (calculate_parameters ([100, 110, 100].map NpVal.finite)).2 =
        NpVal.finite (sampleStdDev (specLogReturns [100, 110, 100]) * Real.sqrt 252)) ∧
    (([100, 110, 100] : List ℝ).length = 2 →
      (calculate_parameters ([100, 110, 100].map NpVal.finite)).2 = NpVal.nan)) :=
  calculate_parameters_sample_std [100, 110, 100] (by norm_num) (by norm_num)

/-- C6 counterexample: the calibrator raises neither InsufficientDataError
on a length-1 series nor InvalidPriceError on a negative price (no such
errors exist in the repository): both inputs succeed and return
(NaN, NaN). -/
theorem calibrator_returns_nan_without_error :
    df_calculate_parameters (some [NpVal.finite 100]) =
      Except.ok (NpVal.nan, NpVal.nan) ∧
    df_calculate_parameters (some [NpVal.finite 100, NpVal.finite (-50), NpVal.finite 100]) =
      Except.ok (NpVal.nan, NpVal.nan) := by
  constructor
  · show Except.ok (calculate_parameters [NpVal.finite 100]) = _
    have hlr : logReturns [NpVal.finite 100] = [] := rfl
    show Except.ok
        (npMul (pdMean (logReturns [NpVal.finite 100])) (NpVal.finite 252),
         npMul (pdStd (logReturns [NpVal.finite 100])) (npSqrt (NpVal.finite 252))) = _
    rw [hlr, npSqrt_finite_nonneg 252 (by norm_num)]
    rfl
  · show Except.ok (calculate_parameters
        [NpVal.finite 100, NpVal.finite (-50), NpVal.finite 100]) = _
    have hlr : logReturns [NpVal.finite 100, NpVal.finite (-50), NpVal.finite 100] = [] := by
      show (((([NpVal.finite 100, NpVal.finite (-50), NpVal.finite 100].zip
          (NpVal.nan :: [NpVal.finite 100, NpVal.finite (-50), NpVal.finite 100])).map
            (fun pr => npDiv pr.1 pr.2)).map npLog).filter (fun x => ! NpVal.isNan x)) = []
      simp only [List.zip_cons_cons, List.map_cons]
      rw [npDiv_finite_nan, npDiv_finite_finite (-50 : ℝ) 100 (by norm_num),
        npDiv_finite_finite (100 : ℝ) (-50) (by norm_num),
        npLog_finite_neg ((-50 : ℝ) / 100) (by norm_num),
        npLog_finite_neg ((100 : ℝ) / (-50)) (by norm_num)]
      rfl
    show Except.ok
        (npMul (pdMean (logReturns
            [NpVal.finite 100, NpVal.finite (-50), NpVal.finite 100])) (NpVal.finite 252),
         npMul (pdStd (logReturns
            [NpVal.finite 100, NpVal.finite (-50), NpVal.finite 100])) (npSqrt (NpVal.finite 252))) = _
    rw [hlr, npSqrt_finite_nonneg 252 (by norm_num)]
    rfl

/-- C6 amended: the calibrator raises no InsufficientDataError and no
InvalidPriceError (neither exists in the repository); its only raise is a
ValueError when no data was fetched.  Given any series shorter than two
entries it succeeds and returns (NaN, NaN): the empty return series makes
both the pandas mean and std NaN, and negative prices likewise produce
NaN log-returns that are silently dropped instead of raising. -/
theorem calibrator_short_series_nan (ps : List (NpVal ℝ)) (h : ps.length < 2) :
    df_calculate_parameters (some ps) = Except.ok (NpVal.nan, NpVal.nan) := by
  rcases ps with _ | ⟨x, _ | ⟨y, t⟩⟩
  · show Except.ok
        (npMul (pdMean (logReturns [])) (NpVal.finite 252),
         npMul (pdStd (logReturns [])) (npSqrt (NpVal.finite 252))) = _
    rw [npSqrt_finite_nonneg 252 (by norm_num)]
    rfl
  · have hlr : logReturns [x] = [] := by
      show ((([x].zip (NpVal.nan :: [x])).map (fun pr => npDiv pr.1 pr.2)).map
          npLog).filter (fun v => ! NpVal.isNan v) = []
      simp only [List.zip_cons_cons, List.map_cons]
      have hx : npDiv x NpVal.nan = NpVal.nan := by cases x <;> rfl
      rw [hx]
      rfl
    show Except.ok
        (npMul (pdMean (logReturns [x])) (NpVal.finite 252),
         npMul (pdStd (logReturns [x])) (npSqrt (NpVal.finite 252))) = _
    rw [hlr, npSqrt_finite_nonneg 252 (by norm_num)]
    rfl
  · exfalso
    simp only [List.length_cons] at h
    omega

/-- Concrete witness for the amended C6. -/
theorem calibrator_short_series_nan_witness :
    df_calculate_parameters (some ([] : List (NpVal ℝ))) =
      Except.ok (NpVal.nan, NpVal.nan) :=
  calibrator_short_series_nan [] (by norm_num)

/-- numpy log of finite zero is negative infinity. -/
theorem npLog_finite_zero :
    npLog (NpVal.finite 0) = NpVal.negInf := by
  show (if (0 : ℝ) < 0 then NpVal.finite (Real.log 0) else if (0 : ℝ) = 0
      then NpVal.negInf else NpVal.nan) = _
  rw [if_neg (lt_irrefl 0), if_pos rfl]

/-- On the series [1, 0, 1] the zero price produces the log-returns
log 0 = -inf and log (1/0) = log inf = inf, and dropna keeps both: the
undefined-ratio entries are NOT dropped. -/
theorem logReturns_zero_price_example :
    logReturns [NpVal.finite 1, NpVal.finite 0, NpVal.finite 1] =
      [NpVal.negInf, NpVal.inf] := by
  show ((([NpVal.finite 1, NpVal.finite 0, NpVal.finite 1].zip
      (NpVal.nan :: [NpVal.finite 1, NpVal.finite 0, NpVal.finite 1])).map
        (fun pr => npDiv pr.1 pr.2)).map npLog).filter (fun v => ! NpVal.isNan v)
    = [NpVal.negInf, NpVal.inf]
  simp only [List.zip_cons_cons, List.map_cons]
  rw [npDiv_finite_nan, npDiv_finite_finite (0 : ℝ) 1 one_ne_zero, zero_div,
    npDiv_finite_zero, if_neg (by norm_num), if_pos (by norm_num),
    npLog_finite_zero]
  rfl

/-- C7 counterexample: with the zero-price series [1, 0, 1] the calibrator
returns mu = NaN and sigma = NaN: the infinite log-returns produced by the
zero price are not dropped by dropna, and the NaN arising from
(-inf) + inf in the mean propagates into both calibrated parameters. -/
theorem zero_price_nan_propagation :
    calculate_parameters [NpVal.finite 1, NpVal.finite 0, NpVal.finite 1] =
      (NpVal.nan, NpVal.nan) := by
  show (npMul (pdMean (logReturns [NpVal.finite 1, NpVal.finite 0, NpVal.finite 1]))
        (NpVal.finite 252),
      npMul (pdStd (logReturns [NpVal.finite 1, NpVal.finite 0, NpVal.finite 1]))
        (npSqrt (NpVal.finite 252))) = _
  rw [logReturns_zero_price_example, npSqrt_finite_nonneg 252 (by norm_num)]
  rfl

/-- C7 amended: dropna removes exactly the NaN entries of the log-return
series (e.g. those caused by a missing price), so no NaN return value
enters the statistics; but a zero price yields infinite log-returns that
are retained, as on the series [1, 0, 1] where the kept returns are
[-inf, inf]. -/
theorem logReturns_drops_only_nan (prices : List (NpVal ℝ)) (v : NpVal ℝ)
    (hv : v ∈ logReturns prices) :
    NpVal.isNan v = false ∧
    logReturns [NpVal.finite 1, NpVal.finite 0, NpVal.finite 1] =
      [NpVal.negInf, NpVal.inf] := by
  constructor
  · simpa using (List.mem_filter.mp hv).2
  · exact logReturns_zero_price_example

/-- Concrete witness for the amended C7. -/
theorem logReturns_drops_only_nan_witness :
    NpVal.isNan (NpVal.negInf : NpVal ℝ) = false ∧
    logReturns [NpVal.finite 1, NpVal.finite 0, NpVal.finite 1] =
      [NpVal.negInf, NpVal.inf] :=
  logReturns_drops_only_nan [NpVal.finite 1, NpVal.finite 0, NpVal.finite 1]
    NpVal.negInf
    (by rw [logReturns_zero_price_example]; exact List.mem_cons_self _ _)

/-- In a sorted list, the value at a smaller index (getD with default 0)
is at most the value at a larger in-range index. -/
theorem sorted_getD_mono (s : List ℚ) (hs : s.Sorted (· ≤ ·)) (i j : ℕ)
    (hij : i ≤ j) (hj : j < s.length) : s.getD i 0 ≤ s.getD j 0 := by
  have hi : i < s.length := Nat.lt_of_le_of_lt hij hj
  rw [List.getD_eq_getElem s 0 hi, List.getD_eq_getElem s 0 hj]
  rcases Nat.lt_or_ge i j with hlt | hge
  · have := hs.rel_get_of_lt (a := ⟨i, hi⟩) (b := ⟨j, hj⟩) (by exact hlt)
    simpa using this
  · have hij2 : i = j := Nat.le_antisymm hij hge
    subst hij2
    exact le_refl _

/-- The interpolation upper node is at least the lower node. -/
theorem getD_succ_ge (s : List ℚ) (hs : s.Sorted (· ≤ ·)) (i : ℕ) :
    s.getD i 0 ≤ s.getD (i + 1) (s.getD i 0) := by
  rcases Nat.lt_or_ge (i + 1) s.length with hin | hout
  · calc s.getD i 0 ≤ s.getD (i + 1) 0 :=
          sorted_getD_mono s hs i (i + 1) (Nat.le_succ i) hin
      _ = s.getD (i + 1) (s.getD i 0) := by
          rw [List.getD_eq_getElem s 0 hin, List.getD_eq_getElem s _ hin]
  · rw [List.getD_eq_default s _ hout]

/-- Linear interpolation into a sorted list is monotone in the fractional
index, on the index range [0, length - 1]. -/
theorem interp_mono (s : List ℚ) (hs : s.Sorted (· ≤ ·)) (hne : s ≠ [])
    (h1 h2 : ℚ) (h0 : 0 ≤ h1) (h12 : h1 ≤ h2)
    (h2le : h2 ≤ (s.length : ℚ) - 1) :
    interp s h1 ≤ interp s h2 := by
  have hn : 0 < s.length := List.length_pos.mpr hne
  have h0b : 0 ≤ h2 := le_trans h0 h12
  have hf1 : (0 : ℤ) ≤ ⌊h1⌋ := Int.floor_nonneg.mpr h0
  have hf2 : (0 : ℤ) ≤ ⌊h2⌋ := Int.floor_nonneg.mpr h0b
  have hc1 : ((⌊h1⌋.toNat : ℚ)) = ((⌊h1⌋ : ℤ) : ℚ) := by
    exact_mod_cast congrArg (Int.cast : ℤ → ℚ) (Int.toNat_of_nonneg hf1)
  have hc2 : ((⌊h2⌋.toNat : ℚ)) = ((⌊h2⌋ : ℤ) : ℚ) := by
    exact_mod_cast congrArg (Int.cast : ℤ → ℚ) (Int.toNat_of_nonneg hf2)
  have hg1a : 0 ≤ h1 - (⌊h1⌋.toNat : ℚ) := by
    rw [hc1]
    exact sub_nonneg.mpr (Int.floor_le h1)
  have hg1b : h1 - (⌊h1⌋.toNat : ℚ) ≤ 1 := by
    rw [hc1]
    have := Int.lt_floor_add_one h1
    linarith
  have hg2a : 0 ≤ h2 - (⌊h2⌋.toNat : ℚ) := by
    rw [hc2]
    exact sub_nonneg.mpr (Int.floor_le h2)
  have hi2n : ⌊h2⌋.toNat < s.length := by
    have hle : ((⌊h2⌋ : ℤ) : ℚ) ≤ (s.length : ℚ) - 1 := le_trans (Int.floor_le h2) h2le
    have hle2 : (⌊h2⌋ : ℤ) ≤ (s.length : ℤ) - 1 := by exact_mod_cast hle
    omega
  have hi12 : ⌊h1⌋.toNat ≤ ⌊h2⌋.toNat := by
    have := Int.floor_mono h12
    omega
  rcases Nat.lt_or_ge ⌊h1⌋.toNat ⌊h2⌋.toNat with hlt | hge
  · have hi1n : ⌊h1⌋.toNat + 1 ≤ ⌊h2⌋.toNat := hlt
    have hi1n2 : ⌊h1⌋.toNat + 1 < s.length := Nat.lt_of_le_of_lt hi1n hi2n
    have e1 : s.getD (⌊h1⌋.toNat + 1) (s.getD ⌊h1⌋.toNat 0)
        = s.getD (⌊h1⌋.toNat + 1) 0 := by
      rw [List.getD_eq_getElem s _ hi1n2, List.getD_eq_getElem s 0 hi1n2]
    have hlo1hi1 : s.getD ⌊h1⌋.toNat 0 ≤ s.getD (⌊h1⌋.toNat + 1) 0 :=
      sorted_getD_mono s hs _ _ (Nat.le_succ _) hi1n2
    have hstep : s.getD (⌊h1⌋.toNat + 1) 0 ≤ s.getD ⌊h2⌋.toNat 0 :=
      sorted_getD_mono s hs _ _ hi1n hi2n
    have hlo2hi2 : s.getD ⌊h2⌋.toNat 0 ≤ s.getD (⌊h2⌋.toNat + 1) (s.getD ⌊h2⌋.toNat 0) :=
      getD_succ_ge s hs _
    simp only [interp]
    rw [e1]
    nlinarith [mul_nonneg hg2a (sub_nonneg.mpr hlo2hi2),
      mul_nonneg (by linarith : (0 : ℚ) ≤ 1 - (h1 - (⌊h1⌋.toNat : ℚ)))
        (sub_nonneg.mpr hlo1hi1)]
  · have heq : ⌊h1⌋.toNat = ⌊h2⌋.toNat := Nat.le_antisymm hi12 hge
    simp only [interp]
    rw [heq]
    have hhi : s.getD ⌊h2⌋.toNat 0 ≤ s.getD (⌊h2⌋.toNat + 1) (s.getD ⌊h2⌋.toNat 0) :=
      getD_succ_ge s hs _
    nlinarith [mul_le_mul_of_nonneg_right
      (by linarith : h1 - (⌊h2⌋.toNat : ℚ) ≤ h2 - (⌊h2⌋.toNat : ℚ))
      (sub_nonneg.mpr hhi)]

/-- np.percentile with linear interpolation is monotone in the requested
percentile, for percentiles within [0, 100] and a nonempty sample. -/
theorem npPercentile_mono (xs : List ℚ) (hne : xs ≠ []) (q1 q2 : ℚ)
    (hq0 : 0 ≤ q1) (hq12 : q1 ≤ q2) (hq100 : q2 ≤ 100) :
    npPercentile q1 xs ≤ npPercentile q2 xs := by
  have hlen : (List.insertionSort (· ≤ ·) xs).length = xs.length :=
    List.length_insertionSort (· ≤ ·) xs
  have hsort : (List.insertionSort (· ≤ ·) xs).Sorted (· ≤ ·) :=
    List.sorted_insertionSort (· ≤ ·) xs
  have hl1 : (1 : ℚ) ≤ (xs.length : ℚ) := by
    exact_mod_cast Nat.one_le_iff_ne_zero.mpr
      (by simpa [List.length_eq_zero] using hne)
  have hsne : List.insertionSort (· ≤ ·) xs ≠ [] := by
    intro hc
    rw [hc] at hlen
    simp only [List.length_nil] at hlen
    exact hne (List.length_eq_zero.mp hlen.symm)
  show interp (List.insertionSort (· ≤ ·) xs) (q1 * ((xs.length : ℚ) - 1) / 100)
    ≤ interp (List.insertionSort (· ≤ ·) xs) (q2 * ((xs.length : ℚ) - 1) / 100)
  apply interp_mono _ hsort hsne
  · exact div_nonneg (mul_nonneg hq0 (by linarith)) (by norm_num)
  · have := mul_le_mul_of_nonneg_right hq12 (by linarith : (0 : ℚ) ≤ (xs.length : ℚ) - 1)
    linarith
  · rw [hlen]
    have := mul_le_mul_of_nonneg_right hq100 (by linarith : (0 : ℚ) ≤ (xs.length : ℚ) - 1)
    linarith

/-- C4: for every ensemble and every day, the per-day percentiles across
the path dimension computed in
ResultAnalyzer._explain_confidence_intervals satisfy
percentile_5 <= percentile_25 <= percentile_75 <= percentile_95. -/
theorem confidence_bands_percentile_monotone (e : QEnsemble) (t : ℕ)
    (hp : 1 ≤ e.paths) :
    percentileBand e 5 t ≤ percentileBand e 25 t ∧
    percentileBand e 25 t ≤ percentileBand e 75 t ∧
    percentileBand e 75 t ≤ percentileBand e 95 t := by
  have hne : dayColumn e t ≠ [] := by
    apply List.ne_nil_of_length_pos
    simp only [dayColumn, List.length_map, List.length_range]
    omega
  exact ⟨npPercentile_mono _ hne 5 25 (by norm_num) (by norm_num) (by norm_num),
    npPercentile_mono _ hne 25 75 (by norm_num) (by norm_num) (by norm_num),
    npPercentile_mono _ hne 75 95 (by norm_num) (by norm_num) (by norm_num)⟩

/-- Concrete witness for C4. -/
theorem confidence_bands_percentile_monotone_witness :
    percentileBand (QEnsemble.mk 1 2 (fun _ p => (p : ℚ))) 5 0 ≤
      percentileBand (QEnsemble.mk 1 2 (fun _ p => (p : ℚ))) 25 0 ∧
    percentileBand (QEnsemble.mk 1 2 (fun _ p => (p : ℚ))) 25 0 ≤
      percentileBand (QEnsemble.mk 1 2 (fun _ p => (p : ℚ))) 75 0 ∧
    percentileBand (QEnsemble.mk 1 2 (fun _ p => (p : ℚ))) 75 0 ≤
      percentileBand (QEnsemble.mk 1 2 (fun _ p => (p : ℚ))) 95 0 :=
  confidence_bands_percentile_monotone (QEnsemble.mk 1 2 (fun _ p => (p : ℚ))) 0
    (by decide)
